import Mathlib

/- Shallow embedding of the cogmods repository: the DIVergent Autoencoder of
   src/diva.py, the multilayer classifier with momentum of
   src/mlc_momentum.py, and the incomplete batch variant of the autoencoder.
   Two-dimensional numpy arrays are modelled as functions
   Fin m → Fin n → α over a field α (α = ℚ for executable witnesses, α = ℝ
   where the code applies np.exp); activation callables supplied through the
   hps dictionary are modelled as elementwise functions α → α, matching the
   sigmoid / tanh / relu lambdas the repository passes in. -/

namespace Cogmods

variable {α : Type} [Field α]
variable {F H K N J C M P : ℕ}

/-- The product np.matmul of two 2-D arrays. -/
def matmul (A : Fin M → Fin N → α) (B : Fin N → Fin P → α) : Fin M → Fin P → α :=
  fun i j => ∑ k, A i k * B k j

/-- The numpy transpose arr.T of a 2-D array. -/
def npT (A : Fin M → Fin N → α) : Fin N → Fin M → α :=
  fun i j => A j i

/-- Broadcast np.add of a bias row of shape 1 × n to every row of a matrix. -/
def addBias (A : Fin M → Fin N → α) (b : Fin N → α) : Fin M → Fin N → α :=
  fun i j => A i j + b j

/-- The reduction arr.sum with axis 0 and keepdims, giving a bias-shaped row
    of column sums. -/
def colsum (A : Fin M → Fin N → α) : Fin N → α :=
  fun j => ∑ i, A i j

/-- Elementwise application of an activation callable to an array. -/
def emap (g : α → α) (A : Fin M → Fin N → α) : Fin M → Fin N → α :=
  fun i j => g (A i j)

/-- Elementwise product np.multiply of two same-shaped arrays. -/
def hprod (A B : Fin M → Fin N → α) : Fin M → Fin N → α :=
  fun i j => A i j * B i j

/-- The 1 × n slice arr[i:i+1, :] used by the training loops. -/
def rowSlice (A : Fin M → Fin N → α) (i : Fin M) : Fin 1 → Fin N → α :=
  fun _ j => A i j

/-- One weights/bias connection of the parameter dictionary. -/
@[ext]
structure Layer (m n : ℕ) (α : Type) where
  weights : Fin m → Fin n → α
  bias : Fin n → α

/-- The hps dictionary: learning rate, momentum rate and the four activation
    callables.  The repository's activations are elementwise lambdas, so the
    entries are functions α → α applied entrywise. -/
structure Hps (α : Type) where
  learning_rate : α
  momentum_rate : α
  hidden_activation : α → α
  hidden_activation_deriv : α → α
  output_activation : α → α
  output_activation_deriv : α → α

/-- The parameter dictionary of diva.py: layer "input" holds the single
    connection "hidden"; layer "hidden" holds one decoder connection per
    category channel. -/
structure DivaParams (F H K : ℕ) (α : Type) where
  input_hidden : Layer F H α
  hidden : Fin K → Layer H F α

/-- The list returned by forward:
    [hidden_act_raw, hidden_act, output_act_raw, output_act]. -/
structure ForwardOut (N H F : ℕ) (α : Type) where
  hidden_act_raw : Fin N → Fin H → α
  hidden_act : Fin N → Fin H → α
  output_act_raw : Fin N → Fin F → α
  output_act : Fin N → Fin F → α

/-- The forward pass of diva.py. -/
def forward (params : DivaParams F H K α) (inputs : Fin N → Fin F → α) (channel : Fin K)
    (hps : Hps α) : ForwardOut N H F α :=
  let hidden_act_raw := addBias (matmul inputs params.input_hidden.weights)
    params.input_hidden.bias
  let hidden_act := emap hps.hidden_activation hidden_act_raw
  let output_act_raw := addBias (matmul hidden_act (params.hidden channel).weights)
    (params.hidden channel).bias
  let output_act := emap hps.output_activation output_act_raw
  ⟨hidden_act_raw, hidden_act, output_act_raw, output_act⟩

/-- The guard np.any(targets) == None with which diva.py tries to default a
    missing target.  np.any returns a numpy boolean for every argument —
    including None, whose truth value is False — and a numpy boolean compared
    with None under == is always False, so the guard is false on every input
    and the defaulting branch is dead code. -/
def npAnyEqNone {β : Type} (targets : Option β) : Bool :=
  false

/-- The statement "if np.any(targets) == None: targets = inputs" shared by
    loss, loss_grad, response, fit and predict in diva.py.  Because the guard
    never fires, a missing target stays missing. -/
def resolveTargets {β : Type} (targets : Option β) (inputs : β) : Option β :=
  if npAnyEqNone targets then some inputs else targets

/-- Body of diva.py loss once a concrete target array is in hand: mean (over
    the batch) of the summed squared reconstruction error. -/
def lossCore (params : DivaParams F H K α) (inputs : Fin N → Fin F → α) (channel : Fin K)
    (hps : Hps α) (targets : Fin N → Fin F → α) : α :=
  (∑ i, ∑ j, ((forward params inputs channel hps).output_act i j - targets i j) ^ 2) / (N : α)

/-- diva.py loss.  When targets is None the guard does not fire (see
    npAnyEqNone) and np.subtract(..., None) raises a TypeError, modelled as
    none. -/
def loss (params : DivaParams F H K α) (inputs : Fin N → Fin F → α) (channel : Fin K)
    (hps : Hps α) (targets : Option (Fin N → Fin F → α)) : Option α :=
  match resolveTargets targets inputs with
  | none => none
  | some t => some (lossCore params inputs channel hps t)

/-- The gradient dictionary returned by diva.py loss_grad: the input→hidden
    connection plus the decoder connection of the single active channel. -/
structure DivaGrad (F H K : ℕ) (α : Type) where
  input_hidden : Layer F H α
  channel : Fin K
  hidden_channel : Layer H F α

/-- The decode-layer gradient of diva.py loss_grad: derivative of the output
    activation at the raw outputs, times the derivative of the cost. -/
def decode_grad (params : DivaParams F H K α) (inputs : Fin N → Fin F → α) (channel : Fin K)
    (hps : Hps α) (targets : Fin N → Fin F → α) : Fin N → Fin F → α :=
  hprod (emap hps.output_activation_deriv (forward params inputs channel hps).output_act_raw)
    (fun i j => 2 * ((forward params inputs channel hps).output_act i j - targets i j) / (N : α))

/-- The encode-layer gradient of diva.py loss_grad: derivative of the hidden
    activation, times the decode gradient pushed back through the channel
    weights. -/
def encode_grad (params : DivaParams F H K α) (inputs : Fin N → Fin F → α) (channel : Fin K)
    (hps : Hps α) (targets : Fin N → Fin F → α) : Fin N → Fin H → α :=
  hprod (emap hps.hidden_activation_deriv (forward params inputs channel hps).hidden_act_raw)
    (matmul (decode_grad params inputs channel hps targets) (npT (params.hidden channel).weights))

/-- Body of diva.py loss_grad once a concrete target array is in hand. -/
def loss_gradCore (params : DivaParams F H K α) (inputs : Fin N → Fin F → α) (channel : Fin K)
    (hps : Hps α) (targets : Fin N → Fin F → α) : DivaGrad F H K α :=
  ⟨⟨matmul (npT inputs) (encode_grad params inputs channel hps targets),
    colsum (encode_grad params inputs channel hps targets)⟩,
   channel,
   ⟨matmul (npT (forward params inputs channel hps).hidden_act)
      (decode_grad params inputs channel hps targets),
    colsum (decode_grad params inputs channel hps targets)⟩⟩

/-- diva.py loss_grad, with the same dead defaulting guard as loss. -/
def loss_grad (params : DivaParams F H K α) (inputs : Fin N → Fin F → α) (channel : Fin K)
    (hps : Hps α) (targets : Option (Fin N → Fin F → α)) : Option (DivaGrad F H K α) :=
  match resolveTargets targets inputs with
  | none => none
  | some t => some (loss_gradCore params inputs channel hps t)

/-- Final normalization of diva.py response:
    1 - channel_errors / channel_errors.sum(axis 0), the numerically stable
    complement form. -/
def stableScores (e : Fin K → α) : Fin K → α :=
  fun k => 1 - e k / ∑ j, e j

/-- Final normalization of the batch variant's response:
    (1 / channel_errors) / (1 / channel_errors).sum(axis 0), the reciprocal
    form. -/
def recipScores (e : Fin K → α) : Fin K → α :=
  fun k => (1 / e k) / ∑ j, 1 / e j

/-- The reduction np.abs(np.diff(activations, axis 0)).sum(axis 0) of diva.py
    response: for each (example, feature) position, the sum of absolute
    differences of CONSECUTIVE channel activations in stack order (np.diff
    forms a[d+1] - a[d], not all pairwise differences). -/
noncomputable def consecDiffSum (a : Fin J → Fin N → Fin F → ℝ) : Fin N → Fin F → ℝ :=
  fun n f => ∑ d ∈ Finset.range (J - 1),
    if h : d + 1 < J then |a ⟨d + 1, h⟩ n f - a ⟨d, by omega⟩ n f| else 0

/-- The diversity weights of diva.py response: consecutive-difference
    diversities, exponentiated at strength beta and normalized by the grand
    total over all (example, feature) positions. -/
noncomputable def fweights (beta : ℝ) (a : Fin J → Fin N → Fin F → ℝ) : Fin N → Fin F → ℝ :=
  fun n f => Real.exp (beta * consecDiffSum a n f) /
    ∑ n', ∑ f', Real.exp (beta * consecDiffSum a n' f')

/-- Modelled from the spec's words "exp(beta · Σ|pairwise differences of
    channel activations|)": the sum of absolute differences over ALL
    unordered pairs of channels, written for comparison against the code's
    consecutive-difference computation. -/
noncomputable def pairDiffSum (a : Fin J → Fin N → Fin F → ℝ) : Fin N → Fin F → ℝ :=
  fun n f => ∑ j, ∑ k, if j < k then |a j n f - a k n f| else 0

/-- Diversity weights in the all-pairs form that the spec and claim state. -/
noncomputable def fweightsAllPairs (beta : ℝ) (a : Fin J → Fin N → Fin F → ℝ) :
    Fin N → Fin F → ℝ :=
  fun n f => Real.exp (beta * pairDiffSum a n f) /
    ∑ n', ∑ f', Real.exp (beta * pairDiffSum a n' f')

/-- The per-channel error of diva.py response: squared reconstruction error
    weighted by the diversity weights and summed over the feature axis. -/
noncomputable def channelErrors (a : Fin J → Fin N → Fin F → ℝ) (t : Fin N → Fin F → ℝ)
    (beta : ℝ) : Fin J → Fin N → ℝ :=
  fun k n => ∑ f, (t n f - a k n f) ^ 2 * fweights beta a n f

/-- diva.py response: per-channel forward activations, diversity weighting,
    weighted channel errors, then the stable complement normalization. -/
noncomputable def response (params : DivaParams F H K ℝ) (inputs : Fin N → Fin F → ℝ)
    (channels : Fin J → Fin K) (hps : Hps ℝ) (targets : Option (Fin N → Fin F → ℝ))
    (beta : ℝ) : Option (Fin J → Fin N → ℝ) :=
  match resolveTargets targets inputs with
  | none => none
  | some t =>
    let activations := fun j => (forward params inputs (channels j) hps).output_act
    some (fun k n => stableScores (fun j => channelErrors activations t beta j n) k)

/-- Population variance np.var(activations, axis 0) across the channel
    axis, used by the batch variant's response. -/
noncomputable def varAcrossChannels (a : Fin J → Fin N → Fin F → ℝ) : Fin N → Fin F → ℝ :=
  fun n f => (∑ j, (a j n f - (∑ j', a j' n f) / (J : ℝ)) ^ 2) / (J : ℝ)

/-- Feature weights of the batch variant's response: exp(beta · mean over the
    example axis of the channel variance), normalized to sum to one. -/
noncomputable def varWeights (beta : ℝ) (a : Fin J → Fin N → Fin F → ℝ) : Fin F → ℝ :=
  fun f => Real.exp (beta * (∑ n, varAcrossChannels a n f) / (N : ℝ)) /
    ∑ f', Real.exp (beta * (∑ n, varAcrossChannels a n f') / (N : ℝ))

/-- The response of the incomplete batch variant: variance-based feature
    weights, weighted channel errors, then the reciprocal normalization. -/
noncomputable def responseBatch (params : DivaParams F H K ℝ) (inputs : Fin N → Fin F → ℝ)
    (channels : Fin J → Fin K) (hps : Hps ℝ) (targets : Option (Fin N → Fin F → ℝ))
    (beta : ℝ) : Option (Fin J → Fin N → ℝ) :=
  match resolveTargets targets inputs with
  | none => none
  | some t =>
    let activations := fun j => (forward params inputs (channels j) hps).output_act
    let errs := fun (k : Fin J) (n : Fin N) =>
      ∑ f, (t n f - activations k n f) ^ 2 * varWeights beta activations f
    some (fun k n => recipScores (fun j => errs j n) k)

/-- diva.py update_params: plain gradient descent param -= lr · grad applied
    to every connection present in the gradient dictionary (the input→hidden
    connection and the single active channel); all other decoder channels are
    not in the gradient dictionary and are left alone. -/
def update_params (params : DivaParams F H K α) (gradients : DivaGrad F H K α) (lr : α) :
    DivaParams F H K α :=
  ⟨⟨fun i j => params.input_hidden.weights i j - lr * gradients.input_hidden.weights i j,
    fun j => params.input_hidden.bias j - lr * gradients.input_hidden.bias j⟩,
   fun c =>
     if c = gradients.channel then
       ⟨fun i j => (params.hidden c).weights i j - lr * gradients.hidden_channel.weights i j,
        fun j => (params.hidden c).bias j - lr * gradients.hidden_channel.bias j⟩
     else params.hidden c⟩

/-- One step of diva.py fit's inner loop: gradient at the 1-row slice of
    example i, then update_params.  The loop variable i is the plain array
    index from range(inputs.shape[0]). -/
def fitStep (inputs : Fin N → Fin F → α) (labels : Fin N → Fin K) (hps : Hps α)
    (t : Fin N → Fin F → α) (params : DivaParams F H K α) (i : Fin N) : DivaParams F H K α :=
  update_params params
    (loss_gradCore params (rowSlice inputs i) (labels i) hps (rowSlice t i))
    hps.learning_rate

/-- diva.py fit.  The state threads (params, presentation_order); perms e
    models the fresh random permutation np.random.shuffle draws at epoch e,
    applied to the current contents of presentation_order.  The inner sweep
    iterates the plain index i, exactly as the source does.  With
    targets = None the defaulting guard does not fire and the first subscript
    of None raises, modelled as none. -/
def fit (params : DivaParams F H K α) (inputs : Fin N → Fin F → α) (labels : Fin N → Fin K)
    (hps : Hps α) (targets : Option (Fin N → Fin F → α)) (training_epochs : ℕ)
    (randomize_presentation : Bool) (perms : ℕ → (Fin N → Fin N)) :
    Option (DivaParams F H K α) :=
  match resolveTargets targets inputs with
  | none => none
  | some t =>
    some (((List.range training_epochs).foldl
      (fun (st : DivaParams F H K α × (Fin N → Fin N)) e =>
        ((List.finRange N).foldl (fitStep inputs labels hps t) st.1,
         if randomize_presentation then fun i => st.2 (perms e i) else st.2))
      (params, fun i => i)).1)

/-- np.argmin along the channel axis: the first index attaining the minimum. -/
noncomputable def argmin0 (s : Fin (J + 1) → ℝ) : Fin (J + 1) :=
  (List.finRange (J + 1)).foldl (fun best j => if s j < s best then j else best) 0

/-- diva.py predict: argmin over the channel axis of response (called with
    the default beta = 0), with the same dead defaulting guard. -/
noncomputable def predict (params : DivaParams F H K ℝ) (inputs : Fin N → Fin F → ℝ)
    (channels : Fin (J + 1) → Fin K) (hps : Hps ℝ)
    (targets : Option (Fin N → Fin F → ℝ)) : Option (Fin N → Fin (J + 1)) :=
  (response params inputs channels hps targets 0).map
    (fun r => fun n => argmin0 (fun j => r j n))

/-- The parameter dictionary of mlc_momentum.py: layer "input" holds the
    connection "hidden", layer "hidden" the single connection "output".
    Gradient and velocity dictionaries share this exact shape. -/
@[ext]
structure MlcParams (F H C : ℕ) (α : Type) where
  input_hidden : Layer F H α
  hidden_output : Layer H C α

/-- The forward pass of mlc_momentum.py. -/
def forwardM (params : MlcParams F H C α) (inputs : Fin N → Fin F → α) (hps : Hps α) :
    ForwardOut N H C α :=
  let hidden_act_raw := addBias (matmul inputs params.input_hidden.weights)
    params.input_hidden.bias
  let hidden_act := emap hps.hidden_activation hidden_act_raw
  let output_act_raw := addBias (matmul hidden_act params.hidden_output.weights)
    params.hidden_output.bias
  let output_act := emap hps.output_activation output_act_raw
  ⟨hidden_act_raw, hidden_act, output_act_raw, output_act⟩

/-- mlc_momentum.py loss_grad; targets are a required argument there. -/
def loss_gradM (params : MlcParams F H C α) (inputs : Fin N → Fin F → α)
    (targets : Fin N → Fin C → α) (hps : Hps α) : MlcParams F H C α :=
  let f := forwardM params inputs hps
  let dg := hprod (emap hps.output_activation_deriv f.output_act_raw)
    (fun i j => 2 * (f.output_act i j - targets i j) / (N : α))
  let eg := hprod (emap hps.hidden_activation_deriv f.hidden_act_raw)
    (matmul dg (npT params.hidden_output.weights))
  ⟨⟨matmul (npT inputs) eg, colsum eg⟩, ⟨matmul (npT f.hidden_act) dg, colsum dg⟩⟩

/-- mlc_momentum.py update_params: velocity = lr·grad + momentum·velocity and
    param -= velocity on both connections, returning (params, velocities). -/
def update_params_momentum (params gradients velocities : MlcParams F H C α)
    (learning_rate momentum_rate : α) : MlcParams F H C α × MlcParams F H C α :=
  let vih : Layer F H α :=
    ⟨fun i j => learning_rate * gradients.input_hidden.weights i j +
        momentum_rate * velocities.input_hidden.weights i j,
     fun j => learning_rate * gradients.input_hidden.bias j +
        momentum_rate * velocities.input_hidden.bias j⟩
  let vho : Layer H C α :=
    ⟨fun i j => learning_rate * gradients.hidden_output.weights i j +
        momentum_rate * velocities.hidden_output.weights i j,
     fun j => learning_rate * gradients.hidden_output.bias j +
        momentum_rate * velocities.hidden_output.bias j⟩
  (⟨⟨fun i j => params.input_hidden.weights i j - vih.weights i j,
     fun j => params.input_hidden.bias j - vih.bias j⟩,
    ⟨fun i j => params.hidden_output.weights i j - vho.weights i j,
     fun j => params.hidden_output.bias j - vho.bias j⟩⟩,
   ⟨vih, vho⟩)

/-- The plain gradient-descent rule of diva.py update_params (param -=
    lr · grad on every connection present in the gradient dictionary),
    specialized to the classifier's parameter shape, whose gradient
    dictionary always holds both connections. -/
def update_params_gd (params gradients : MlcParams F H C α) (lr : α) : MlcParams F H C α :=
  ⟨⟨fun i j => params.input_hidden.weights i j - lr * gradients.input_hidden.weights i j,
    fun j => params.input_hidden.bias j - lr * gradients.input_hidden.bias j⟩,
   ⟨fun i j => params.hidden_output.weights i j - lr * gradients.hidden_output.weights i j,
    fun j => params.hidden_output.bias j - lr * gradients.hidden_output.bias j⟩⟩

/-- The all-zero dictionary used to initialize the velocities in
    mlc_momentum.py fit. -/
def zeroMlc : MlcParams F H C α :=
  ⟨⟨fun _ _ => 0, fun _ => 0⟩, ⟨fun _ _ => 0, fun _ => 0⟩⟩

/-- A run of momentum steps: the inner loop of mlc_momentum.py fit over a
    list of example indices, threading (params, velocities). -/
def stepsM (inputs : Fin N → Fin F → α) (targets : Fin N → Fin C → α) (hps : Hps α)
    (l : List (Fin N)) (pv : MlcParams F H C α × MlcParams F H C α) :
    MlcParams F H C α × MlcParams F H C α :=
  l.foldl (fun pv i =>
    update_params_momentum pv.1
      (loss_gradM pv.1 (rowSlice inputs i) (rowSlice targets i) hps)
      pv.2 hps.learning_rate hps.momentum_rate) pv

/-- The same run with the plain gradient-descent rule in place of the
    momentum rule. -/
def stepsGD (inputs : Fin N → Fin F → α) (targets : Fin N → Fin C → α) (hps : Hps α)
    (l : List (Fin N)) (p : MlcParams F H C α) : MlcParams F H C α :=
  l.foldl (fun p i =>
    update_params_gd p (loss_gradM p (rowSlice inputs i) (rowSlice targets i) hps)
      hps.learning_rate) p

/-- mlc_momentum.py fit: zero-initialized velocities, then per epoch an
    optional shuffle of the (never consulted) presentation order and a sweep
    of the examples by ascending array index. -/
def fitM (params : MlcParams F H C α) (inputs : Fin N → Fin F → α)
    (targets : Fin N → Fin C → α) (hps : Hps α) (training_epochs : ℕ)
    (randomize_presentation : Bool) (perms : ℕ → (Fin N → Fin N)) : MlcParams F H C α :=
  ((List.range training_epochs).foldl
    (fun (st : (MlcParams F H C α × MlcParams F H C α) × (Fin N → Fin N)) e =>
      (stepsM inputs targets hps (List.finRange N) st.1,
       if randomize_presentation then fun i => st.2 (perms e i) else st.2))
    ((params, zeroMlc), fun i => i)).1.1

/-- The classifier training loop with the momentum rule replaced by the plain
    gradient-descent rule, identical initial parameters and identical example
    presentation order. -/
def fitGDM (params : MlcParams F H C α) (inputs : Fin N → Fin F → α)
    (targets : Fin N → Fin C → α) (hps : Hps α) (training_epochs : ℕ)
    (randomize_presentation : Bool) (perms : ℕ → (Fin N → Fin N)) : MlcParams F H C α :=
  ((List.range training_epochs).foldl
    (fun (st : MlcParams F H C α × (Fin N → Fin N)) e =>
      (stepsGD inputs targets hps (List.finRange N) st.1,
       if randomize_presentation then fun i => st.2 (perms e i) else st.2))
    (params, fun i => i)).1

/-- np.max(x) of a whole 2-D array: the single global maximum, not a per-row
    maximum. -/
noncomputable def npMax {n c : ℕ} (x : Fin (n + 1) → Fin (c + 1) → ℝ) : ℝ :=
  Finset.univ.sup' Finset.univ_nonempty (fun p : Fin (n + 1) × Fin (c + 1) => x p.1 p.2)

/-- mlc_momentum.py softmax.  The statement x -= np.max(x) mutates the
    caller's array in place, so the call is modelled as returning both the
    mutated argument (first component) and the return value (second
    component); each returned row is divided by its own row sum. -/
noncomputable def softmaxCall {n c : ℕ} (x : Fin (n + 1) → Fin (c + 1) → ℝ) :
    (Fin (n + 1) → Fin (c + 1) → ℝ) × (Fin (n + 1) → Fin (c + 1) → ℝ) :=
  (fun i j => x i j - npMax x,
   fun i j => Real.exp (x i j - npMax x) / ∑ j', Real.exp (x i j' - npMax x))

/-- mlc_momentum.py response: softmax of the forward outputs. -/
noncomputable def responseM {n c : ℕ} (params : MlcParams F H (c + 1) ℝ)
    (inputs : Fin (n + 1) → Fin F → ℝ) (hps : Hps ℝ) : Fin (n + 1) → Fin (c + 1) → ℝ :=
  (softmaxCall ((forwardM params inputs hps).output_act)).2

/-- Concrete stack of three channel activations over one example and two
    features, the first feature valued 0, 1, 2 across the channel axis. -/
def aCx : Fin 3 → Fin 1 → Fin 2 → ℝ :=
  fun k _ f => if f.val = 0 then (k.val : ℝ) else 0

/-- Concrete all-zero autoencoder parameters over 1 feature, 1 hidden node
    and 2 channels. -/
def zeroDivaParams : DivaParams 1 1 2 ℚ :=
  ⟨⟨fun _ _ => 0, fun _ => 0⟩, fun _ => ⟨fun _ _ => 0, fun _ => 0⟩⟩

/-- Concrete all-zero gradient dictionary addressing channel 0. -/
def zeroDivaGrad : DivaGrad 1 1 2 ℚ :=
  ⟨⟨fun _ _ => 0, fun _ => 0⟩, 0, ⟨fun _ _ => 0, fun _ => 0⟩⟩

/-- C4: for every parameter store, input batch, channel and activation pair,
forward is a pure function (a Lean function of its arguments, mutating
nothing) returning the ordered tuple (hidden_pre, hidden_post, output_pre,
output_post) with hidden_pre = inputs · W_input_hidden + b_input_hidden,
hidden_post = hidden_activation(hidden_pre), output_pre = hidden_post ·
W_hidden_channel + b_hidden_channel, output_post =
output_activation(output_pre). -/
theorem forward_formulas (params : DivaParams F H K α) (inputs : Fin N → Fin F → α)
    (channel : Fin K) (hps : Hps α) :
    (∀ n h, (forward params inputs channel hps).hidden_act_raw n h =
        (∑ k, inputs n k * params.input_hidden.weights k h) + params.input_hidden.bias h)
    ∧ (∀ n h, (forward params inputs channel hps).hidden_act n h =
        hps.hidden_activation ((forward params inputs channel hps).hidden_act_raw n h))
    ∧ (∀ n j, (forward params inputs channel hps).output_act_raw n j =
        (∑ h, (forward params inputs channel hps).hidden_act n h *
          (params.hidden channel).weights h j) + (params.hidden channel).bias j)
    ∧ (∀ n j, (forward params inputs channel hps).output_act n j =
        hps.output_activation ((forward params inputs channel hps).output_act_raw n j)) :=
  ⟨fun _ _ => rfl, fun _ _ => rfl, fun _ _ => rfl, fun _ _ => rfl⟩

/-- C3: with an explicit target, loss_grad returns the gradient dictionary
shaped as Parameters restricted to the input→hidden connection and the active
channel, whose tensors equal the closed forms: decode_grad =
output_activation_deriv(output_pre) ⊙ (2/N)(output_post − target);
grad_W_hidden_channel = hidden_postᵀ · decode_grad; grad_b_hidden_channel =
colsum(decode_grad); encode_grad = hidden_activation_deriv(hidden_pre) ⊙
(decode_grad · W_hidden_channelᵀ); grad_W_input_hidden = inputsᵀ ·
encode_grad; grad_b_input_hidden = colsum(encode_grad). -/
theorem loss_grad_closed_forms (params : DivaParams F H K α) (inputs : Fin N → Fin F → α)
    (channel : Fin K) (hps : Hps α) (t : Fin N → Fin F → α) :
    (∀ n j, decode_grad params inputs channel hps t n j =
        hps.output_activation_deriv ((forward params inputs channel hps).output_act_raw n j) *
          (2 / (N : α) * ((forward params inputs channel hps).output_act n j - t n j)))
    ∧ (∀ h j, (loss_gradCore params inputs channel hps t).hidden_channel.weights h j =
        ∑ n, (forward params inputs channel hps).hidden_act n h *
          decode_grad params inputs channel hps t n j)
    ∧ (∀ j, (loss_gradCore params inputs channel hps t).hidden_channel.bias j =
        ∑ n, decode_grad params inputs channel hps t n j)
    ∧ (∀ n h, encode_grad params inputs channel hps t n h =
        hps.hidden_activation_deriv ((forward params inputs channel hps).hidden_act_raw n h) *
          ∑ j, decode_grad params inputs channel hps t n j * (params.hidden channel).weights h j)
    ∧ (∀ i h, (loss_gradCore params inputs channel hps t).input_hidden.weights i h =
        ∑ n, inputs n i * encode_grad params inputs channel hps t n h)
    ∧ (∀ h, (loss_gradCore params inputs channel hps t).input_hidden.bias h =
        ∑ n, encode_grad params inputs channel hps t n h)
    ∧ (loss_gradCore params inputs channel hps t).channel = channel
    ∧ loss_grad params inputs channel hps (some t) =
        some (loss_gradCore params inputs channel hps t) := by
  refine ⟨fun n j => ?_, fun _ _ => rfl, fun _ => rfl, fun _ _ => rfl, fun _ _ => rfl,
    fun _ => rfl, rfl, rfl⟩
  show hps.output_activation_deriv _ *
      (2 * ((forward params inputs channel hps).output_act n j - t n j) / (N : α)) = _
  ring

/-- C2: the claim says a missing target defaults to the input batch with no
error raised; on the code the guard np.any(targets) == None never fires, so
loss, loss_grad, response, predict and fit all raise (modelled as none) when
no target is supplied, while the same calls with targets = inputs succeed —
the two calls do not behave identically. -/
theorem missing_targets_raise_not_default (params : DivaParams F H K ℝ)
    (inputs : Fin N → Fin F → ℝ) (channel : Fin K) (channels : Fin (J + 1) → Fin K)
    (hps : Hps ℝ) (beta : ℝ) (labels : Fin N → Fin K) (epochs : ℕ) (r : Bool)
    (perms : ℕ → (Fin N → Fin N)) :
    loss params inputs channel hps none = none
    ∧ loss_grad params inputs channel hps none = none
    ∧ response params inputs channels hps none beta = none
    ∧ predict params inputs channels hps none = none
    ∧ fit params inputs labels hps none epochs r perms = none
    ∧ loss params inputs channel hps (some inputs) =
        some (lossCore params inputs channel hps inputs)
    ∧ loss params inputs channel hps none ≠ loss params inputs channel hps (some inputs) := by
  refine ⟨rfl, rfl, rfl, rfl, rfl, rfl, ?_⟩
  intro hcontra
  exact Option.noConfusion hcontra

/-- C9: update_params modifies only the tensors of connections present in the
gradient dictionary: the decoder layer of every channel other than the
addressed one is exactly unchanged, while the input→hidden connection and the
addressed channel follow param -= lr · grad. -/
theorem update_params_frame (params : DivaParams F H K α) (g : DivaGrad F H K α) (lr : α)
    (c' : Fin K) (hc : c' ≠ g.channel) :
    (update_params params g lr).hidden c' = params.hidden c'
    ∧ (∀ i j, (update_params params g lr).input_hidden.weights i j =
        params.input_hidden.weights i j - lr * g.input_hidden.weights i j)
    ∧ (∀ j, (update_params params g lr).input_hidden.bias j =
        params.input_hidden.bias j - lr * g.input_hidden.bias j)
    ∧ (∀ i j, ((update_params params g lr).hidden g.channel).weights i j =
        (params.hidden g.channel).weights i j - lr * g.hidden_channel.weights i j)
    ∧ (∀ j, ((update_params params g lr).hidden g.channel).bias j =
        (params.hidden g.channel).bias j - lr * g.hidden_channel.bias j) := by
  refine ⟨?_, fun _ _ => rfl, fun _ => rfl, ?_, ?_⟩
  · show (if c' = g.channel then _ else params.hidden c') = params.hidden c'
    rw [if_neg hc]
  · intro i j
    show (if g.channel = g.channel then _ else params.hidden g.channel).weights i j = _
    rw [if_pos rfl]
  · intro j
    show (if g.channel = g.channel then _ else params.hidden g.channel).bias j = _
    rw [if_pos rfl]

/-- Witness for C9: a concrete autoencoder step on channel 0 leaves the
decoder of channel 1 untouched. -/
theorem update_params_frame_witness :
    ((1 : Fin 2) ≠ zeroDivaGrad.channel)
    ∧ ((update_params zeroDivaParams zeroDivaGrad 1).hidden 1 = zeroDivaParams.hidden 1
      ∧ (∀ i j, (update_params zeroDivaParams zeroDivaGrad 1).input_hidden.weights i j =
          zeroDivaParams.input_hidden.weights i j - 1 * zeroDivaGrad.input_hidden.weights i j)
      ∧ (∀ j, (update_params zeroDivaParams zeroDivaGrad 1).input_hidden.bias j =
          zeroDivaParams.input_hidden.bias j - 1 * zeroDivaGrad.input_hidden.bias j)
      ∧ (∀ i j, ((update_params zeroDivaParams zeroDivaGrad 1).hidden
            zeroDivaGrad.channel).weights i j =
          (zeroDivaParams.hidden zeroDivaGrad.channel).weights i j -
            1 * zeroDivaGrad.hidden_channel.weights i j)
      ∧ (∀ j, ((update_params zeroDivaParams zeroDivaGrad 1).hidden
            zeroDivaGrad.channel).bias j =
          (zeroDivaParams.hidden zeroDivaGrad.channel).bias j -
            1 * zeroDivaGrad.hidden_channel.bias j)) :=
  ⟨by decide, update_params_frame zeroDivaParams zeroDivaGrad 1 1 (by decide)⟩

/-- Each row of the softmax return value sums to one, because the row is
divided by its own row sum and every exponential is positive. -/
theorem softmaxCall_row_sum {n c : ℕ} (x : Fin (n + 1) → Fin (c + 1) → ℝ) (i : Fin (n + 1)) :
    ∑ j, (softmaxCall x).2 i j = 1 := by
  have hpos : 0 < ∑ j', Real.exp (x i j' - npMax x) :=
    Finset.sum_pos (fun j _ => Real.exp_pos _) Finset.univ_nonempty
  show (∑ j, Real.exp (x i j - npMax x) / ∑ j', Real.exp (x i j' - npMax x)) = 1
  rw [← Finset.sum_div]
  exact div_self (ne_of_gt hpos)

/-- C10: softmax mutates its argument in place — the array the caller passed
in becomes the original minus the single global maximum of the whole array
(an upper bound of every entry in every row, not a per-row maximum) — and
each returned row is nevertheless normalized by its own row sum, so rows of
the return value sum to one. -/
theorem softmax_inplace_global_max {n c : ℕ} (x : Fin (n + 1) → Fin (c + 1) → ℝ) :
    ((softmaxCall x).1 = fun i j => x i j - npMax x)
    ∧ (∀ i j, x i j ≤ npMax x)
    ∧ (∀ i j, (softmaxCall x).2 i j =
        Real.exp (x i j - npMax x) / ∑ j', Real.exp (x i j' - npMax x))
    ∧ (∀ i, ∑ j, (softmaxCall x).2 i j = 1) := by
  refine ⟨rfl, fun i j => ?_, fun _ _ => rfl, softmaxCall_row_sum x⟩
  exact Finset.le_sup' (fun p : Fin (n + 1) × Fin (c + 1) => x p.1 p.2) (Finset.mem_univ (i, j))

/-- C8: softmax output rows each sum to 1; the reciprocal-weighted
channel-competition scores sum to 1 across channels per example; and the
stable-complement scores across K channels sum to K − 1. -/
theorem response_normalization_sums {n c K : ℕ} (x : Fin (n + 1) → Fin (c + 1) → ℝ)
    (e : Fin K → ℚ) (hK : 0 < K) (hpos : ∀ k, 0 < e k) :
    (∀ i, ∑ j, (softmaxCall x).2 i j = 1)
    ∧ (∑ k, recipScores e k = 1)
    ∧ (∑ k, stableScores e k = (K : ℚ) - 1) := by
  have hne : (Finset.univ : Finset (Fin K)).Nonempty := ⟨⟨0, hK⟩, Finset.mem_univ _⟩
  have hS : 0 < ∑ k, e k := Finset.sum_pos (fun k _ => hpos k) hne
  have hT : 0 < ∑ k, 1 / e k :=
    Finset.sum_pos (fun k _ => one_div_pos.mpr (hpos k)) hne
  refine ⟨softmaxCall_row_sum x, ?_, ?_⟩
  · show (∑ k, (1 / e k) / ∑ j, 1 / e j) = 1
    rw [← Finset.sum_div]
    exact div_self (ne_of_gt hT)
  · show (∑ k, (1 - e k / ∑ j, e j)) = (K : ℚ) - 1
    rw [Finset.sum_sub_distrib, Finset.sum_const, ← Finset.sum_div, div_self (ne_of_gt hS)]
    simp

/-- Witness for C8 at a concrete 1 × 1 softmax input and a concrete pair of
positive channel errors. -/
theorem response_normalization_sums_witness :
    (0 < 2)
    ∧ (∀ k : Fin 2, 0 < (![1, 1] : Fin 2 → ℚ) k)
    ∧ ((∀ i, ∑ j, (softmaxCall (fun _ _ => (0 : ℝ) : Fin 1 → Fin 1 → ℝ)).2 i j = 1)
      ∧ (∑ k, recipScores (![1, 1] : Fin 2 → ℚ) k = 1)
      ∧ (∑ k, stableScores (![1, 1] : Fin 2 → ℚ) k = ((2 : ℕ) : ℚ) - 1)) :=
  ⟨by decide, by decide,
    response_normalization_sums (fun _ _ => (0 : ℝ)) ![1, 1] (by decide) (by decide)⟩

/-- C5: for strictly positive per-channel errors over two or more channels,
the stable score 1 − e k / Σ e and the reciprocal score (1 / e k) / Σ (1 / e)
induce exactly the same ranking of channels — the same non-strict and strict
comparisons, hence the same argmin prediction. -/
theorem stable_recip_same_ranking {α : Type} [LinearOrderedField α] {K : ℕ}
    (e : Fin K → α) (hK : 2 ≤ K) (hpos : ∀ k, 0 < e k) :
    (∀ j k, (stableScores e j ≤ stableScores e k ↔ recipScores e j ≤ recipScores e k))
    ∧ (∀ j k, (stableScores e j < stableScores e k ↔ recipScores e j < recipScores e k))
    ∧ (∀ j, (∀ k, stableScores e j ≤ stableScores e k) ↔
        (∀ k, recipScores e j ≤ recipScores e k)) := by
  have hne : (Finset.univ : Finset (Fin K)).Nonempty :=
    ⟨⟨0, by omega⟩, Finset.mem_univ _⟩
  have hS : 0 < ∑ k, e k := Finset.sum_pos (fun k _ => hpos k) hne
  have hT : 0 < ∑ k, 1 / e k :=
    Finset.sum_pos (fun k _ => one_div_pos.mpr (hpos k)) hne
  have hstable : ∀ j k, (stableScores e j ≤ stableScores e k ↔ e k ≤ e j) := by
    intro j k
    show 1 - e j / ∑ i, e i ≤ 1 - e k / ∑ i, e i ↔ e k ≤ e j
    rw [sub_le_sub_iff_left, div_le_div_iff₀ hS hS, mul_le_mul_right hS]
  have hrecip : ∀ j k, (recipScores e j ≤ recipScores e k ↔ e k ≤ e j) := by
    intro j k
    show (1 / e j) / ∑ i, 1 / e i ≤ (1 / e k) / ∑ i, 1 / e i ↔ e k ≤ e j
    rw [div_le_div_iff₀ hT hT, mul_le_mul_right hT, one_div_le_one_div (hpos j) (hpos k)]
  have hle : ∀ j k, (stableScores e j ≤ stableScores e k ↔
      recipScores e j ≤ recipScores e k) := by
    intro j k
    rw [hstable, hrecip]
  refine ⟨hle, fun j k => ?_, fun j => forall_congr' (fun k => hle j k)⟩
  rw [← not_le, ← not_le, not_iff_not]
  exact hle k j

/-- Witness for C5 at two channels with errors 1 and 2 over ℚ. -/
theorem stable_recip_same_ranking_witness :
    (2 ≤ 2)
    ∧ (∀ k : Fin 2, 0 < (![1, 2] : Fin 2 → ℚ) k)
    ∧ ((∀ j k, (stableScores (![1, 2] : Fin 2 → ℚ) j ≤ stableScores (![1, 2] : Fin 2 → ℚ) k ↔
          recipScores (![1, 2] : Fin 2 → ℚ) j ≤ recipScores (![1, 2] : Fin 2 → ℚ) k))
      ∧ (∀ j k, (stableScores (![1, 2] : Fin 2 → ℚ) j < stableScores (![1, 2] : Fin 2 → ℚ) k ↔
          recipScores (![1, 2] : Fin 2 → ℚ) j < recipScores (![1, 2] : Fin 2 → ℚ) k))
      ∧ (∀ j, (∀ k, stableScores (![1, 2] : Fin 2 → ℚ) j ≤
            stableScores (![1, 2] : Fin 2 → ℚ) k) ↔
          (∀ k, recipScores (![1, 2] : Fin 2 → ℚ) j ≤ recipScores (![1, 2] : Fin 2 → ℚ) k))) :=
  ⟨by decide, by decide, stable_recip_same_ranking (![1, 2] : Fin 2 → ℚ) (by decide) (by decide)⟩

/-- Folding a pair whose first component evolves independently of the second:
the first projection of the fold ignores the second component entirely. -/
theorem foldl_pair_fst {β γ ε : Type} (f : β → β) (g : ε → γ → γ) :
    ∀ (l : List ε) (b : β) (c0 : γ),
      (l.foldl (fun st e => (f st.1, g e st.2)) (b, c0)).1 = l.foldl (fun b' _ => f b') b := by
  intro l
  induction l with
  | nil => intro b c0; rfl
  | cons e l ih => intro b c0; exact ih (f b) (g e c0)

/-- Folding a pair step whose first projection agrees with a step on the
first component alone. -/
theorem foldl_fst_congr {β δ ε : Type} (f : β × δ → β × δ) (g : β → β)
    (h : ∀ pv, (f pv).1 = g pv.1) :
    ∀ (l : List ε) (pv : β × δ),
      (l.foldl (fun pv _ => f pv) pv).1 = l.foldl (fun b _ => g b) pv.1 := by
  intro l
  induction l with
  | nil => intro pv; rfl
  | cons e l ih =>
    intro pv
    have hl := ih (f pv)
    simp only [List.foldl_cons]
    rw [hl, h]

/-- With momentum rate zero, one momentum update leaves exactly the plain
gradient-descent parameters (and a velocity of lr · grad, which the next
zero-momentum step ignores). -/
theorem update_params_momentum_zero (p g v : MlcParams F H C α) (lr : α) :
    (update_params_momentum p g v lr 0).1 = update_params_gd p g lr := by
  ext i j
  all_goals simp only [update_params_momentum, update_params_gd]
  all_goals ring

/-- With momentum rate zero, a run of momentum steps from any velocities
traces exactly the plain gradient-descent parameters, step by step. -/
theorem stepsM_zero_is_stepsGD (inputs : Fin N → Fin F → α) (targets : Fin N → Fin C → α)
    (lr : α) (ha hd oa od : α → α) :
    ∀ (l : List (Fin N)) (p v : MlcParams F H C α),
      (stepsM inputs targets ⟨lr, 0, ha, hd, oa, od⟩ l (p, v)).1 =
        stepsGD inputs targets ⟨lr, 0, ha, hd, oa, od⟩ l p := by
  intro l
  induction l with
  | nil => intro p v; rfl
  | cons i l ih =>
    intro p v
    have hstep := update_params_momentum_zero p
      (loss_gradM p (rowSlice inputs i) (rowSlice targets i) ⟨lr, 0, ha, hd, oa, od⟩) v lr
    calc (stepsM inputs targets ⟨lr, 0, ha, hd, oa, od⟩ (i :: l) (p, v)).1
        = (stepsM inputs targets ⟨lr, 0, ha, hd, oa, od⟩ l
            ((update_params_momentum p
                (loss_gradM p (rowSlice inputs i) (rowSlice targets i) ⟨lr, 0, ha, hd, oa, od⟩)
                v lr 0).1,
             (update_params_momentum p
                (loss_gradM p (rowSlice inputs i) (rowSlice targets i) ⟨lr, 0, ha, hd, oa, od⟩)
                v lr 0).2)).1 := rfl
      _ = stepsGD inputs targets ⟨lr, 0, ha, hd, oa, od⟩ l
            (update_params_momentum p
              (loss_gradM p (rowSlice inputs i) (rowSlice targets i) ⟨lr, 0, ha, hd, oa, od⟩)
              v lr 0).1 := ih _ _
      _ = stepsGD inputs targets ⟨lr, 0, ha, hd, oa, od⟩ l
            (update_params_gd p
              (loss_gradM p (rowSlice inputs i) (rowSlice targets i) ⟨lr, 0, ha, hd, oa, od⟩)
              lr) := by rw [hstep]
      _ = stepsGD inputs targets ⟨lr, 0, ha, hd, oa, od⟩ (i :: l) p := rfl

/-- C6: with identical initial parameters, identical example presentation
order, momentum rate 0 and zero-initialized velocities, the momentum
optimizer produces exactly the same parameter trajectory, step by step and
epoch by epoch, as the plain gradient-descent rule param -= lr · grad. -/
theorem momentum_zero_matches_plain_gd (inputs : Fin N → Fin F → α)
    (targets : Fin N → Fin C → α) (lr : α) (ha hd oa od : α → α) :
    (∀ (l : List (Fin N)) (p v : MlcParams F H C α),
      (stepsM inputs targets ⟨lr, 0, ha, hd, oa, od⟩ l (p, v)).1 =
        stepsGD inputs targets ⟨lr, 0, ha, hd, oa, od⟩ l p)
    ∧ (∀ (epochs : ℕ) (randomize : Bool) (perms : ℕ → (Fin N → Fin N))
        (p : MlcParams F H C α),
      fitM p inputs targets ⟨lr, 0, ha, hd, oa, od⟩ epochs randomize perms =
        fitGDM p inputs targets ⟨lr, 0, ha, hd, oa, od⟩ epochs randomize perms) := by
  refine ⟨stepsM_zero_is_stepsGD inputs targets lr ha hd oa od, ?_⟩
  intro epochs randomize perms p
  have h1 := congrArg Prod.fst (foldl_pair_fst
    (fun pv => stepsM inputs targets ⟨lr, 0, ha, hd, oa, od⟩ (List.finRange N) pv)
    (fun e o => if randomize then (fun i => o (perms e i)) else o)
    (List.range epochs) ((p, zeroMlc)) (fun i => i))
  have h2 := foldl_fst_congr
    (fun pv => stepsM inputs targets ⟨lr, 0, ha, hd, oa, od⟩ (List.finRange N) pv)
    (fun q => stepsGD inputs targets ⟨lr, 0, ha, hd, oa, od⟩ (List.finRange N) q)
    (fun pv => stepsM_zero_is_stepsGD inputs targets lr ha hd oa od (List.finRange N) pv.1 pv.2)
    (List.range epochs) ((p, zeroMlc))
  have h3 := foldl_pair_fst
    (fun q => stepsGD inputs targets ⟨lr, 0, ha, hd, oa, od⟩ (List.finRange N) q)
    (fun e o => if randomize then (fun i => o (perms e i)) else o)
    (List.range epochs) p (fun i => i)
  exact h1.trans (h2.trans h3.symm)

/-- C1: the training loops draw (and even compose) the per-epoch shuffles of
presentation_order, but the inner sweep indexes examples by the plain loop
counter, so the parameter trajectory is identical for any two permutation
streams and shuffle flags: the drawn permutation is never applied to the
order in which gradient steps occur. -/
theorem fit_ignores_presentation_order (params : DivaParams F H K α)
    (inputs : Fin N → Fin F → α) (labels : Fin N → Fin K) (hps : Hps α)
    (targets : Option (Fin N → Fin F → α)) (epochs : ℕ) (r r' : Bool)
    (perms perms' : ℕ → (Fin N → Fin N)) (paramsM : MlcParams F H C α)
    (inputsM : Fin N → Fin F → α) (targetsM : Fin N → Fin C → α) (hpsM : Hps α) :
    fit params inputs labels hps targets epochs r perms =
      fit params inputs labels hps targets epochs r' perms'
    ∧ fitM paramsM inputsM targetsM hpsM epochs r perms =
      fitM paramsM inputsM targetsM hpsM epochs r' perms' := by
  constructor
  · cases targets with
    | none => rfl
    | some t =>
      have h1 := foldl_pair_fst
        (fun q => (List.finRange N).foldl (fitStep inputs labels hps t) q)
        (fun e o => if r then (fun i => o (perms e i)) else o)
        (List.range epochs) params (fun i => i)
      have h2 := foldl_pair_fst
        (fun q => (List.finRange N).foldl (fitStep inputs labels hps t) q)
        (fun e o => if r' then (fun i => o (perms' e i)) else o)
        (List.range epochs) params (fun i => i)
      exact congrArg some (h1.trans h2.symm)
  · have h1 := congrArg Prod.fst (foldl_pair_fst
      (fun pv => stepsM inputsM targetsM hpsM (List.finRange N) pv)
      (fun e o => if r then (fun i => o (perms e i)) else o)
      (List.range epochs) ((paramsM, zeroMlc)) (fun i => i))
    have h2 := congrArg Prod.fst (foldl_pair_fst
      (fun pv => stepsM inputsM targetsM hpsM (List.finRange N) pv)
      (fun e o => if r' then (fun i => o (perms' e i)) else o)
      (List.range epochs) ((paramsM, zeroMlc)) (fun i => i))
    exact h1.trans h2.symm

/-- The code's consecutive-difference diversity at the concrete stack aCx,
first feature: the stacked values 0, 1, 2 give |1-0| + |2-1| = 2. -/
theorem consecDiffSum_aCx_f0 : consecDiffSum aCx 0 0 = 2 := by
  show (∑ d ∈ Finset.range (3 - 1),
    if h : d + 1 < 3 then |aCx ⟨d + 1, h⟩ 0 0 - aCx ⟨d, by omega⟩ 0 0| else 0) = 2
  rw [show (3 : ℕ) - 1 = 2 from rfl, Finset.sum_range_succ, Finset.sum_range_one]
  norm_num [aCx]

/-- The code's consecutive-difference diversity at aCx, second feature: all
channels agree, so the diversity is 0. -/
theorem consecDiffSum_aCx_f1 : consecDiffSum aCx 0 1 = 0 := by
  show (∑ d ∈ Finset.range (3 - 1),
    if h : d + 1 < 3 then |aCx ⟨d + 1, h⟩ 0 1 - aCx ⟨d, by omega⟩ 0 1| else 0) = 0
  rw [show (3 : ℕ) - 1 = 2 from rfl, Finset.sum_range_succ, Finset.sum_range_one]
  norm_num [aCx]

/-- The all-pairs diversity at aCx, first feature: |0-1| + |0-2| + |1-2| = 4. -/
theorem pairDiffSum_aCx_f0 : pairDiffSum aCx 0 0 = 4 := by
  show (∑ j : Fin 3, ∑ k : Fin 3, if j < k then |aCx j 0 0 - aCx k 0 0| else 0) = 4
  rw [Fin.sum_univ_three]
  rw [Fin.sum_univ_three, Fin.sum_univ_three, Fin.sum_univ_three]
  norm_num [aCx, Fin.lt_def]

/-- The all-pairs diversity at aCx, second feature: 0. -/
theorem pairDiffSum_aCx_f1 : pairDiffSum aCx 0 1 = 0 := by
  show (∑ j : Fin 3, ∑ k : Fin 3, if j < k then |aCx j 0 1 - aCx k 0 1| else 0) = 0
  rw [Fin.sum_univ_three]
  rw [Fin.sum_univ_three, Fin.sum_univ_three, Fin.sum_univ_three]
  norm_num [aCx, Fin.lt_def]

/-- The code's diversity weight at aCx with beta = 1, position (0, 0). -/
theorem fweights_aCx : fweights 1 aCx 0 0 = Real.exp 2 / (Real.exp 2 + 1) := by
  show Real.exp (1 * consecDiffSum aCx 0 0) /
      ∑ n', ∑ f', Real.exp (1 * consecDiffSum aCx n' f') = _
  rw [Fin.sum_univ_one, Fin.sum_univ_two, consecDiffSum_aCx_f0, consecDiffSum_aCx_f1]
  norm_num [Real.exp_zero]

/-- The all-pairs weight at aCx with beta = 1, position (0, 0). -/
theorem fweightsAllPairs_aCx : fweightsAllPairs 1 aCx 0 0 = Real.exp 4 / (Real.exp 4 + 1) := by
  show Real.exp (1 * pairDiffSum aCx 0 0) /
      ∑ n', ∑ f', Real.exp (1 * pairDiffSum aCx n' f') = _
  rw [Fin.sum_univ_one, Fin.sum_univ_two, pairDiffSum_aCx_f0, pairDiffSum_aCx_f1]
  norm_num [Real.exp_zero]

/-- The map x ↦ x / (x + 1) is strictly monotone on positives, so the two
normalized weights differ because exp 2 < exp 4. -/
theorem exp_ratio_ne : Real.exp 2 / (Real.exp 2 + 1) ≠ Real.exp 4 / (Real.exp 4 + 1) := by
  have h2 : (0 : ℝ) < Real.exp 2 := Real.exp_pos 2
  have h4 : (0 : ℝ) < Real.exp 4 := Real.exp_pos 4
  have hlt : Real.exp 2 < Real.exp 4 := Real.exp_lt_exp.mpr (by norm_num)
  have hmono : Real.exp 2 / (Real.exp 2 + 1) < Real.exp 4 / (Real.exp 4 + 1) := by
    rw [div_lt_div_iff₀ (by linarith) (by linarith)]
    nlinarith
  exact ne_of_lt hmono

/-- C7 counterexample: for the stack aCx of three channel activations over
one example and two features (first feature 0, 1, 2 across channels, second
feature constant) and beta = 1, the code's diversity weight at position
(0, 0) is exp 2 / (exp 2 + 1) while the claim's all-pairs weight is
exp 4 / (exp 4 + 1) — np.diff sums only consecutive channel differences, so
the claim as stated is false for three or more channels. -/
theorem fweights_not_all_pairs : fweights 1 aCx 0 0 ≠ fweightsAllPairs 1 aCx 0 0 := by
  rw [fweights_aCx, fweightsAllPairs_aCx]
  exact exp_ratio_ne

/-- C7 amended: the diversity weights of diva.py response equal
exp(beta · sum of absolute differences of CONSECUTIVE channel activations in
stack order), normalized so the weights over all (example, feature) positions
sum to one; with exactly two channels this coincides with the all-pairs form
the claim states. -/
theorem fweights_consecutive_normalized {J nN nF : ℕ} (beta : ℝ)
    (a : Fin J → Fin (nN + 1) → Fin (nF + 1) → ℝ)
    (a2 : Fin 2 → Fin (nN + 1) → Fin (nF + 1) → ℝ) :
    (∀ n f, fweights beta a n f =
        Real.exp (beta * consecDiffSum a n f) /
          ∑ n', ∑ f', Real.exp (beta * consecDiffSum a n' f'))
    ∧ (∑ n, ∑ f, fweights beta a n f = 1)
    ∧ (∀ n f, fweights beta a2 n f = fweightsAllPairs beta a2 n f) := by
  have hpair : ∀ (n : Fin (nN + 1)) (f : Fin (nF + 1)),
      consecDiffSum a2 n f = pairDiffSum a2 n f := by
    intro n f
    show (∑ d ∈ Finset.range (2 - 1),
        if h : d + 1 < 2 then |a2 ⟨d + 1, h⟩ n f - a2 ⟨d, by omega⟩ n f| else 0) =
      ∑ j : Fin 2, ∑ k : Fin 2, if j < k then |a2 j n f - a2 k n f| else 0
    rw [show (2 : ℕ) - 1 = 1 from rfl, Finset.sum_range_one]
    rw [Fin.sum_univ_two, Fin.sum_univ_two, Fin.sum_univ_two]
    norm_num [Fin.lt_def]
    rw [abs_sub_comm]
  have hpos : 0 < ∑ n', ∑ f', Real.exp (beta * consecDiffSum a n' f') :=
    Finset.sum_pos
      (fun n _ => Finset.sum_pos (fun f _ => Real.exp_pos _) Finset.univ_nonempty)
      Finset.univ_nonempty
  refine ⟨fun n f => rfl, ?_, ?_⟩
  · show (∑ n, ∑ f, Real.exp (beta * consecDiffSum a n f) /
        ∑ n', ∑ f', Real.exp (beta * consecDiffSum a n' f')) = 1
    simp only [← Finset.sum_div]
    exact div_self (ne_of_gt hpos)
  · intro n f
    show Real.exp (beta * consecDiffSum a2 n f) /
        (∑ n', ∑ f', Real.exp (beta * consecDiffSum a2 n' f')) =
      Real.exp (beta * pairDiffSum a2 n f) /
        ∑ n', ∑ f', Real.exp (beta * pairDiffSum a2 n' f')
    simp only [hpair]

end Cogmods
